import Mathlib

/-
Verification of the linear.c library (teleprint-me/linear.c).

Shallow embedding of the C sources:
  src/vector.c          vector API (creation, element-wise, geometric ops)
  src/matrix.c          matrix API (element access, scalar ops, stubs)
  src/thread.c          fixed-size thread pool (submit / worker dequeue)
  src/floating_point.c  bit casts between float and int32_t

C `float` values are modelled abstractly through the `FloatOps` structure:
machine arithmetic (+, -, *, /, sqrt) becomes abstract operations on a
carrier type, the comparison `x == 0` becomes `eqZero`, and the literals
0.0f, -1.0f, NAN become distinguished elements.  All theorems hold for
every instance; `intModel` is a concrete executable instance used for
witnesses and counterexamples.  For src/floating_point.c, where only the
bit pattern matters, a C float is modelled as its 32-bit pattern.

Loops of the form `for (i = 0; i < n; i++) buf[i] = ...;` are embedded by
`mapLoop`, a left fold over `List.range n` that performs one store per
index; a buffer is a total function `Nat -> F` (reads outside the written
region return whatever junk the allocation started with, matching the
indeterminate contents of malloc).  Functions that receive pointers
return the final states of every pointed-to object next to their result,
so that claims about arguments being left unchanged are statable.
-/

namespace LinearC

/-- Modulus of C uint32_t arithmetic (2 ^ 32). -/
def two32 : Nat := 4294967296

/-- Abstract model of C binary32 values and the operations the library
applies to them.  `eqZero x` models the C comparison `x == 0`;
`eqZero_zero` records the IEEE-754 fact that `0.0f == 0` is true. -/
structure FloatOps (F : Type) where
  zero : F
  negOne : F
  nan : F
  add : F → F → F
  sub : F → F → F
  mul : F → F → F
  div : F → F → F
  sqrt : F → F
  sqrtf : F → F
  eqZero : F → Bool
  eqZero_zero : eqZero zero = true

variable {F : Type}

/-- Embedding of `for (i = 0; i < n; i++) buf[i] = g(i, buf[i]);`
as a left fold of single-index stores over the ascending index list. -/
def mapLoop (n : Nat) (g : Nat → F → F) (buf : Nat → F) : Nat → F :=
  (List.range n).foldl (fun acc i => fun j => if j = i then g i (acc i) else acc j) buf

/-- Model of `vector_t` (src/vector.c revision with fields `columns`,
`data`): a dimension count and the allocated float buffer. -/
structure vector_t (F : Type) where
  columns : Nat
  data : Nat → F

variable (ops : FloatOps F)

/-- src/vector.c vector_create: allocate, zero the first `columns` cells.
The indeterminate contents of malloc are modelled as `ops.nan` junk. -/
def vector_create (columns : Nat) : vector_t F :=
  { columns := columns
    data := mapLoop columns (fun _ _ => ops.zero) (fun _ => ops.nan) }

/-- src/vector.c scalar_add: `return x + y;`. -/
def scalar_add (x y : F) : F := ops.add x y

/-- src/vector.c scalar_subtract: `return x - y;`. -/
def scalar_subtract (x y : F) : F := ops.sub x y

/-- src/vector.c scalar_multiply: `return x * y;`. -/
def scalar_multiply (x y : F) : F := ops.mul x y

/-- src/vector.c scalar_divide: `if (y == 0) return NAN; return x / y;`. -/
def scalar_divide (x y : F) : F :=
  if ops.eqZero y then ops.nan else ops.div x y

/-- src/vector.c vector_scalar_elementwise_operation: create a result of
`a.columns` cells and store `operation(a.data[i], b)` in each.  Allocation
is modelled as always succeeding. -/
def vector_scalar_elementwise_operation (a : vector_t F) (b : F)
    (operation : F → F → F) : vector_t F :=
  let c := vector_create ops a.columns
  { c with data := mapLoop a.columns (fun i _ => operation (a.data i) b) c.data }

/-- src/vector.c vector_scalar_add. -/
def vector_scalar_add (a : vector_t F) (b : F) : vector_t F :=
  vector_scalar_elementwise_operation ops a b (scalar_add ops)

/-- src/vector.c vector_scalar_subtract. -/
def vector_scalar_subtract (a : vector_t F) (b : F) : vector_t F :=
  vector_scalar_elementwise_operation ops a b (scalar_subtract ops)

/-- src/vector.c vector_scalar_multiply. -/
def vector_scalar_multiply (a : vector_t F) (b : F) : vector_t F :=
  vector_scalar_elementwise_operation ops a b (scalar_multiply ops)

/-- src/vector.c vector_scalar_divide. -/
def vector_scalar_divide (a : vector_t F) (b : F) : vector_t F :=
  vector_scalar_elementwise_operation ops a b (scalar_divide ops)

/-- src/vector.c vector_vector_elementwise_operation.  The input vectors
are taken through `const` pointers and never written; the embedding
returns their final states alongside the result so that the claims about
them being unchanged are statable.  Dimension mismatch returns NULL
(`none`). -/
def vector_vector_elementwise_operation (a b : vector_t F)
    (operation : F → F → F) : vector_t F × vector_t F × Option (vector_t F) :=
  if a.columns ≠ b.columns then (a, b, none)
  else
    let c := vector_create ops a.columns
    (a, b, some { c with
      data := mapLoop a.columns (fun i _ => operation (a.data i) (b.data i)) c.data })

/-- src/vector.c vector_vector_add. -/
def vector_vector_add (a b : vector_t F) :
    vector_t F × vector_t F × Option (vector_t F) :=
  vector_vector_elementwise_operation ops a b (scalar_add ops)

/-- src/vector.c vector_vector_subtract. -/
def vector_vector_subtract (a b : vector_t F) :
    vector_t F × vector_t F × Option (vector_t F) :=
  vector_vector_elementwise_operation ops a b (scalar_subtract ops)

/-- src/vector.c vector_vector_multiply. -/
def vector_vector_multiply (a b : vector_t F) :
    vector_t F × vector_t F × Option (vector_t F) :=
  vector_vector_elementwise_operation ops a b (scalar_multiply ops)

/-- src/vector.c vector_vector_divide. -/
def vector_vector_divide (a b : vector_t F) :
    vector_t F × vector_t F × Option (vector_t F) :=
  vector_vector_elementwise_operation ops a b (scalar_divide ops)

/-- src/vector.c vector_magnitude: sum of squares, then `sqrt` (the
double-precision sqrt, converted back to float on return; that composite
is the abstract `ops.sqrt`). -/
def vector_magnitude (vector : vector_t F) : F :=
  ops.sqrt ((List.range vector.columns).foldl
    (fun sum i => ops.add sum (ops.mul (vector.data i) (vector.data i))) ops.zero)

/-- src/vector.c vector_distance: NAN on dimension mismatch, else
`sqrtf` of the summed squared differences. -/
def vector_distance (a b : vector_t F) : F :=
  if a.columns ≠ b.columns then ops.nan
  else ops.sqrtf ((List.range a.columns).foldl
    (fun acc i => ops.add acc
      (ops.mul (ops.sub (a.data i) (b.data i)) (ops.sub (a.data i) (b.data i))))
    ops.zero)

/-- src/vector.c vector_low_pass_filter: unimplemented stub, logs an
error and returns -1.0f regardless of its arguments. -/
def vector_low_pass_filter (_vector : vector_t F) (_alpha : F) : F :=
  ops.negOne

/-- What a vector-returning function handed a mutable vector returned:
NULL, the input pointer itself, or a freshly created vector. -/
inductive VecResult (F : Type) where
  | null : VecResult F
  | self : VecResult F
  | fresh : vector_t F → VecResult F

/-- Payload of a `VecResult.fresh`; junk on the other constructors. -/
def vec_of_result : VecResult F → vector_t F
  | VecResult.fresh u => u
  | VecResult.null => { columns := 0, data := fun _ => ops.nan }
  | VecResult.self => { columns := 0, data := fun _ => ops.nan }

/-- src/vector.c vector_normalize.  The first component is the final
state of the input vector; the second reports what the C function
returned (NULL, the input pointer, or a fresh unit vector). -/
def vector_normalize (vector : vector_t F) (inplace : Bool) :
    vector_t F × VecResult F :=
  let magnitude := vector_magnitude ops vector
  if ops.eqZero magnitude then (vector, VecResult.null)
  else if inplace then
    ({ vector with
        data := mapLoop vector.columns (fun _ x => ops.div x magnitude) vector.data },
      VecResult.self)
  else
    let unit := vector_create ops vector.columns
    (vector, VecResult.fresh { unit with
      data := mapLoop vector.columns (fun i _ => ops.div (vector.data i) magnitude)
        unit.data })

/-- Model of `matrix_t` (src/matrix.c): row and column counts and the
flat row-major float buffer. -/
structure matrix_t (F : Type) where
  rows : Nat
  columns : Nat
  data : Nat → F

/-- src/matrix.c matrix_create: allocate rows*columns floats (uint32
product) and zero them.  Malloc junk is modelled as `ops.nan`. -/
def matrix_create (rows columns : Nat) : matrix_t F :=
  { rows := rows
    columns := columns
    data := mapLoop (rows * columns % two32) (fun _ _ => ops.zero) (fun _ => ops.nan) }

/-- Flat index `row * columns + column` as computed in C uint32_t
arithmetic. -/
def index32 (row columns column : Nat) : Nat :=
  (row * columns % two32 + column) % two32

/-- src/matrix.c matrix_get_element: NAN when out of bounds, else the
row-major cell. -/
def matrix_get_element (matrix : matrix_t F) (row column : Nat) : F :=
  if row ≥ matrix.rows ∨ column ≥ matrix.columns then ops.nan
  else matrix.data (index32 row matrix.columns column)

/-- src/matrix.c matrix_set_element: false when out of bounds, else
store the value and return true.  The second component is the final
state of the matrix. -/
def matrix_set_element (matrix : matrix_t F) (row column : Nat) (value : F) :
    Bool × matrix_t F :=
  if row ≥ matrix.rows ∨ column ≥ matrix.columns then (false, matrix)
  else (true, { matrix with
    data := fun j => if j = index32 row matrix.columns column then value
      else matrix.data j })

/-- src/matrix.c matrix_elements: `rows * columns` in uint32_t. -/
def matrix_elements (matrix : matrix_t F) : Nat :=
  matrix.rows * matrix.columns % two32

/-- src/matrix.c matrix_scalar_operation: create a fresh rows-by-columns
matrix and store `operation(matrix.data[i], scalar)` in each of the
`matrix_elements` cells.  The input matrix is read only; its final state
is returned alongside the result. -/
def matrix_scalar_operation (matrix : matrix_t F) (scalar : F)
    (operation : F → F → F) : matrix_t F × Option (matrix_t F) :=
  let result := matrix_create ops matrix.rows matrix.columns
  let max_elements := matrix_elements matrix
  (matrix, some { result with
    data := mapLoop max_elements (fun i _ => operation (matrix.data i) scalar)
      result.data })

/-- src/matrix.c matrix_scalar_add. -/
def matrix_scalar_add (matrix : matrix_t F) (scalar : F) :
    matrix_t F × Option (matrix_t F) :=
  matrix_scalar_operation ops matrix scalar (scalar_add ops)

/-- src/matrix.c matrix_scalar_subtract. -/
def matrix_scalar_subtract (matrix : matrix_t F) (scalar : F) :
    matrix_t F × Option (matrix_t F) :=
  matrix_scalar_operation ops matrix scalar (scalar_subtract ops)

/-- src/matrix.c matrix_scalar_multiply. -/
def matrix_scalar_multiply (matrix : matrix_t F) (scalar : F) :
    matrix_t F × Option (matrix_t F) :=
  matrix_scalar_operation ops matrix scalar (scalar_multiply ops)

/-- src/matrix.c matrix_scalar_divide. -/
def matrix_scalar_divide (matrix : matrix_t F) (scalar : F) :
    matrix_t F × Option (matrix_t F) :=
  matrix_scalar_operation ops matrix scalar (scalar_divide ops)

/-- src/matrix.c matrix_deep_copy: unimplemented stub, logs an error and
returns NULL for every input. -/
def matrix_deep_copy (_matrix : matrix_t F) : Option (matrix_t F) := none

/-- src/matrix.c matrix_shallow_copy: unimplemented stub, logs an error
and returns NULL for every input. -/
def matrix_shallow_copy (_matrix : matrix_t F) : Option (matrix_t F) := none

/-
src/floating_point.c: encode_float32 / decode_float32 are bit casts
through `union LinearMask { float value; int32_t bits; }`.  Here a C
float is modelled as its 32-bit pattern (`Fin two32`) and an int32_t
as the mathematical integer it denotes; the union trip is then exactly
the two's-complement reading of the pattern and its inverse.
-/

/-- A C float identified with its 32-bit pattern. -/
abbrev Float32Bits : Type := Fin two32

/-- src/floating_point.c encode_float32: reinterpret the float's bit
pattern as an int32_t (two's complement). -/
def encode_float32 (value : Float32Bits) : Int :=
  if value.val < 2147483648 then (value.val : Int)
  else (value.val : Int) - (two32 : Int)

/-- src/floating_point.c decode_float32: reinterpret an int32_t's bit
pattern as a float. -/
def decode_float32 (bits : Int) : Float32Bits :=
  ⟨(bits % (two32 : Int)).toNat, by
    have h : (0 : Int) < (two32 : Int) := by norm_num [two32]
    have h1 := Int.emod_nonneg bits (by omega : (two32 : Int) ≠ 0)
    have h2 := Int.emod_lt_of_pos bits h
    omega⟩

/-
src/thread.c: the thread pool.  The pool state carries the fields of
`struct ThreadPool`; the task buffer is a total function over slot
indices (malloc'd uninitialized, so created filled with a junk task).
Mutex-protected critical sections execute atomically, so the observable
behaviours are exactly the interleavings of the submit critical section
and the worker dequeue critical section, modelled as events.  Executing
a task (`task.operation(task.a, task.b, task.result, task.type)`)
mutates memory outside the pool; that memory is an abstract state `S`
acted on by `apply`.
-/

/-- Model of `struct ThreadPool` (src/thread.c), pthread handles and
synchronisation primitives elided. -/
structure thread_pool_t (T : Type) where
  queue_size : Nat
  thread_count : Nat
  task_count : Nat
  head : Nat
  tail : Nat
  task_queue : Nat → T
  stop : Bool

/-- src/thread.c thread_pool_create: `queue_size` is LINEAR_THREAD_COUNT
(the processor count, here the parameter `nprocs`); counters start at
zero; the task buffer starts as malloc junk. -/
def thread_pool_create (T : Type) (num_threads nprocs : Nat) (junk : T) :
    thread_pool_t T :=
  { thread_count := if num_threads ≠ 0 then num_threads else nprocs
    queue_size := nprocs
    task_count := 0
    head := 0
    tail := 0
    task_queue := fun _ => junk
    stop := false }

/-- src/thread.c thread_pool_submit: store the task at `tail`, advance
`tail` modulo `queue_size`, increment `task_count` (uint32_t).  No
bound check is performed. -/
def thread_pool_submit {T : Type} (pool : thread_pool_t T) (task : T) :
    thread_pool_t T :=
  { pool with
      task_queue := fun j => if j = pool.tail then task else pool.task_queue j
      tail := (pool.tail + 1) % pool.queue_size
      task_count := (pool.task_count + 1) % two32 }

/-- One pass of the worker loop body (src/thread.c worker_thread): if
stopped the thread exits; if the queue is empty it waits (no state
change); otherwise it dequeues from `head` and performs the task on the
external state. -/
def worker_step {T S : Type} (apply : T → S → S) (pool : thread_pool_t T) (s : S) :
    thread_pool_t T × S :=
  if pool.stop then (pool, s)
  else if pool.task_count = 0 then (pool, s)
  else
    ({ pool with
        head := (pool.head + 1) % pool.queue_size
        task_count := pool.task_count - 1 },
      apply (pool.task_queue pool.head) s)

/-- An observable pool event: a producer calling thread_pool_submit, or
a worker thread taking one pass through its loop body. -/
inductive pool_event (T : Type) where
  | submit (task : T) : pool_event T
  | work : pool_event T

/-- Run a sequence of pool events from a pool state and an external
memory state. -/
def pool_run {T S : Type} (apply : T → S → S) :
    List (pool_event T) → thread_pool_t T × S → thread_pool_t T × S
  | [], ps => ps
  | pool_event.submit task :: events, ps =>
      pool_run apply events (thread_pool_submit ps.1 task, ps.2)
  | pool_event.work :: events, ps =>
      pool_run apply events (worker_step apply ps.1 ps.2)

/-- Bounds invariant on a pool state: a positive queue size with both
ring indices inside the buffer. -/
def pool_wf {T : Type} (pool : thread_pool_t T) : Prop :=
  0 < pool.queue_size ∧ pool.head < pool.queue_size ∧ pool.tail < pool.queue_size

/-- Schedule that interleaves each submission with one worker pass:
submit, execute, submit, execute, ... -/
def elementwise_schedule {T : Type} : List T → List (pool_event T)
  | [] => []
  | task :: tasks =>
      pool_event.submit task :: pool_event.work :: elementwise_schedule tasks

/-- Effect of one pool task taken from an element-wise vector addition:
the task's pointers address element `i` of `a`, `b` and the result
buffer, and its operation is the float32 scalar addition, so performing
it stores `a[i] + b[i]` at index `i` of the result buffer. -/
def vector_add_task_apply (a b : vector_t F) (i : Nat) (buf : Nat → F) : Nat → F :=
  fun j => if j = i then scalar_add ops (a.data i) (b.data i) else buf j

/-- Result vector extracted from an element-wise operation's output
(junk empty vector when the operation returned NULL). -/
def ew_result (out : vector_t F × vector_t F × Option (vector_t F)) : vector_t F :=
  out.2.2.getD (vector_create ops 0)

/-- Specification of a successful element-wise vector-vector operation,
sampled at index `i`: inputs unchanged, a fresh result of the common
dimension whose cell `i` (when in range) is the scalar operation of the
operand cells. -/
def ElemwiseOk (a b : vector_t F) (i : Nat)
    (out : vector_t F × vector_t F × Option (vector_t F)) (f : F → F → F) : Prop :=
  out.1 = a ∧ out.2.1 = b ∧ out.2.2.isSome = true ∧
    (ew_result ops out).columns = a.columns ∧
    (i < a.columns → (ew_result ops out).data i = f (a.data i) (b.data i))

/-- Result matrix extracted from a matrix-scalar operation's output
(junk empty matrix when the operation returned NULL). -/
def ms_result (out : matrix_t F × Option (matrix_t F)) : matrix_t F :=
  out.2.getD (matrix_create ops 0 0)

/-- Specification of a matrix-scalar operation, sampled at flat index
`i`: input unchanged, a fresh result of the same shape whose cell `i`
(when in range) is the scalar operation of the operand cell and the
scalar. -/
def MScalarOk (m : matrix_t F) (s : F) (i : Nat)
    (out : matrix_t F × Option (matrix_t F)) (f : F → F → F) : Prop :=
  out.1 = m ∧ out.2.isSome = true ∧
    (ms_result ops out).rows = m.rows ∧
    (ms_result ops out).columns = m.columns ∧
    (i < m.rows * m.columns → (ms_result ops out).data i = f (m.data i) s)

/-- Concrete executable instance of the float model, used only to
evaluate witnesses and counterexamples on concrete inputs. -/
def intModel : FloatOps Int where
  zero := 0
  negOne := -1
  nan := 1000000
  add := fun x y => x + y
  sub := fun x y => x - y
  mul := fun x y => x * y
  div := fun x y => x / y
  sqrt := fun x => x
  sqrtf := fun x => x
  eqZero := fun x => x == 0
  eqZero_zero := by decide

/-- Concrete vector over the executable model, from a list of values. -/
def vecOf (l : List Int) : vector_t Int :=
  { columns := l.length, data := fun j => l.getD j 0 }

/-
Supporting lemmas.
-/

/-- Pointwise characterisation of `mapLoop`: each cell below `n` is
written exactly once, from the original buffer contents at that cell. -/
theorem mapLoop_apply (n : Nat) (g : Nat → F → F) (buf : Nat → F) (j : Nat) :
    mapLoop n g buf j = if j < n then g j (buf j) else buf j := by
  induction n with
  | zero => simp [mapLoop]
  | succ n ih =>
    unfold mapLoop
    rw [List.range_succ, List.foldl_append]
    show (fun j => if j = n then g n (mapLoop n g buf n) else mapLoop n g buf j) j
        = if j < n + 1 then g j (buf j) else buf j
    by_cases hj : j = n
    · subst hj
      simp [ih, Nat.lt_irrefl, Nat.lt_succ_self]
    · have : mapLoop n g buf j = if j < n then g j (buf j) else buf j := ih
      simp only [hj, if_false]
      rw [this]
      by_cases hlt : j < n
      · rw [if_pos hlt, if_pos (Nat.lt_succ_of_lt hlt)]
      · rw [if_neg hlt, if_neg (by omega)]

theorem thread_pool_submit_wf {T : Type} (pool : thread_pool_t T) (task : T)
    (h : pool_wf pool) : pool_wf (thread_pool_submit pool task) := by
  refine ⟨h.1, h.2.1, ?_⟩
  exact Nat.mod_lt _ h.1

theorem worker_step_wf {T S : Type} (apply : T → S → S) (pool : thread_pool_t T)
    (s : S) (h : pool_wf pool) : pool_wf (worker_step apply pool s).1 := by
  unfold worker_step
  by_cases hstop : pool.stop
  · simpa [hstop] using h
  · by_cases hc : pool.task_count = 0
    · simpa [hstop, hc] using h
    · simp only [hstop, hc, if_false, Bool.false_eq_true]
      exact ⟨h.1, Nat.mod_lt _ h.1, h.2.2⟩

theorem pool_run_wf {T S : Type} (apply : T → S → S) (events : List (pool_event T)) :
    ∀ ps : thread_pool_t T × S, pool_wf ps.1 → pool_wf (pool_run apply events ps).1 := by
  induction events with
  | nil => intro ps h; exact h
  | cons e events ih =>
    intro ps h
    cases e with
    | submit task => exact ih _ (thread_pool_submit_wf ps.1 task h)
    | work => exact ih _ (worker_step_wf apply ps.1 ps.2 h)

theorem submit_then_work {T S : Type} (apply : T → S → S) (pool : thread_pool_t T)
    (task : T) (s : S) (hc : pool.task_count = 0) (hht : pool.head = pool.tail)
    (hstop : pool.stop = false) :
    worker_step apply (thread_pool_submit pool task) s
      = ({ pool with
            head := (pool.tail + 1) % pool.queue_size
            tail := (pool.tail + 1) % pool.queue_size
            task_count := 0
            task_queue := fun j => if j = pool.tail then task else pool.task_queue j },
          apply task s) := by
  have h1 : (pool.task_count + 1) % two32 = 1 := by
    rw [hc]
    rfl
  unfold worker_step thread_pool_submit
  simp only [h1, hstop, hht, if_false, Bool.false_eq_true, one_ne_zero, ite_true,
    if_true, ite_false]

theorem pool_run_schedule {T S : Type} (apply : T → S → S) (tasks : List T) :
    ∀ (pool : thread_pool_t T) (s : S),
      0 < pool.queue_size → pool.task_count = 0 → pool.head = pool.tail →
      pool.stop = false →
      (pool_run apply (elementwise_schedule tasks) (pool, s)).2
        = tasks.foldl (fun acc task => apply task acc) s := by
  induction tasks with
  | nil => intro pool s _ _ _ _; rfl
  | cons t ts ih =>
    intro pool s hq hc hht hstop
    show (pool_run apply (elementwise_schedule ts)
        (worker_step apply (thread_pool_submit pool t) s)).2 = _
    rw [submit_then_work apply pool t s hc hht hstop, List.foldl_cons]
    exact ih _ _ hq rfl rfl hstop

theorem vv_elemwise_none (a b : vector_t F) (f : F → F → F)
    (h : a.columns ≠ b.columns) :
    vector_vector_elementwise_operation ops a b f = (a, b, none) := by
  unfold vector_vector_elementwise_operation
  rw [if_pos h]

theorem vv_elemwise_ok (a b : vector_t F) (f : F → F → F) (i : Nat)
    (h : a.columns = b.columns) :
    ElemwiseOk ops a b i (vector_vector_elementwise_operation ops a b f) f := by
  unfold vector_vector_elementwise_operation
  rw [if_neg (by omega)]
  refine ⟨rfl, rfl, rfl, rfl, fun hi => ?_⟩
  show mapLoop a.columns (fun i _ => f (a.data i) (b.data i))
      (vector_create ops a.columns).data i = f (a.data i) (b.data i)
  rw [mapLoop_apply, if_pos hi]

theorem ms_op_ok (m : matrix_t F) (s : F) (f : F → F → F) (i : Nat)
    (h32 : m.rows * m.columns < two32) :
    MScalarOk ops m s i (matrix_scalar_operation ops m s f) f := by
  refine ⟨rfl, rfl, rfl, rfl, fun hi => ?_⟩
  show mapLoop (matrix_elements m) (fun i _ => f (m.data i) s)
      (matrix_create ops m.rows m.columns).data i = f (m.data i) s
  have he : matrix_elements m = m.rows * m.columns := Nat.mod_eq_of_lt h32
  rw [mapLoop_apply, he, if_pos hi]

theorem row_major_index_lt (rows columns row column : Nat)
    (hr : row < rows) (hc : column < columns) :
    row * columns + column < rows * columns := by
  calc row * columns + column < row * columns + columns := by omega
    _ = (row + 1) * columns := by ring
    _ ≤ rows * columns := Nat.mul_le_mul_right columns (by omega)

theorem index32_eq (rows columns row column : Nat)
    (h32 : rows * columns < two32) (hr : row < rows) (hc : column < columns) :
    index32 row columns column = row * columns + column := by
  have hlt : row * columns + column < rows * columns :=
    row_major_index_lt rows columns row column hr hc
  have h1 : row * columns < two32 := by omega
  unfold index32
  rw [Nat.mod_eq_of_lt h1, Nat.mod_eq_of_lt (by omega)]

theorem row_major_index_inj (rows columns r c row column : Nat)
    (_hr : r < rows) (hc : c < columns) (hrow : row < rows) (hcol : column < columns)
    (hne : ¬(r = row ∧ c = column)) :
    r * columns + c ≠ row * columns + column := by
  rcases Nat.lt_trichotomy r row with hlt | heq | hgt
  · have : r * columns + c < row * columns + column := by
      calc r * columns + c < (r + 1) * columns := by
            have := row_major_index_lt (r + 1) columns r c (Nat.lt_succ_self r) hc
            simpa using this
        _ ≤ row * columns := Nat.mul_le_mul_right columns (by omega)
        _ ≤ row * columns + column := by omega
    omega
  · subst heq
    have : c ≠ column := by tauto
    omega
  · have : row * columns + column < r * columns + c := by
      calc row * columns + column < (row + 1) * columns := by
            have := row_major_index_lt (row + 1) columns row column
              (Nat.lt_succ_self row) hcol
            simpa using this
        _ ≤ r * columns := Nat.mul_le_mul_right columns (by omega)
        _ ≤ r * columns + c := by omega
    omega

/-
Claim theorems.
-/

/-- C4: for every pair of vectors, vector_vector_add, subtract, multiply
and divide return NULL when the dimension counts differ; when they are
equal, each returns a newly created vector of that dimension count whose
i-th element is the corresponding scalar operation of the operands'
i-th elements, and the elements of both inputs are unchanged. -/
theorem vector_vector_ops_spec (a b : vector_t F) (i : Nat) :
    (a.columns ≠ b.columns →
      vector_vector_add ops a b = (a, b, none) ∧
      vector_vector_subtract ops a b = (a, b, none) ∧
      vector_vector_multiply ops a b = (a, b, none) ∧
      vector_vector_divide ops a b = (a, b, none)) ∧
    (a.columns = b.columns →
      ElemwiseOk ops a b i (vector_vector_add ops a b) (scalar_add ops) ∧
      ElemwiseOk ops a b i (vector_vector_subtract ops a b) (scalar_subtract ops) ∧
      ElemwiseOk ops a b i (vector_vector_multiply ops a b) (scalar_multiply ops) ∧
      ElemwiseOk ops a b i (vector_vector_divide ops a b) (scalar_divide ops)) := by
  constructor
  · intro h
    exact ⟨vv_elemwise_none ops a b _ h, vv_elemwise_none ops a b _ h,
      vv_elemwise_none ops a b _ h, vv_elemwise_none ops a b _ h⟩
  · intro h
    exact ⟨vv_elemwise_ok ops a b _ i h, vv_elemwise_ok ops a b _ i h,
      vv_elemwise_ok ops a b _ i h, vv_elemwise_ok ops a b _ i h⟩

/-- C4 witness: the matching-dimension branch evaluated on concrete
two-element vectors over the executable model. -/
theorem vector_vector_ops_spec_witness :
    (vecOf [1, 2]).columns = (vecOf [3, 4]).columns ∧
    ElemwiseOk intModel (vecOf [1, 2]) (vecOf [3, 4]) 0
      (vector_vector_add intModel (vecOf [1, 2]) (vecOf [3, 4]))
      (scalar_add intModel) :=
  ⟨by decide,
    ((vector_vector_ops_spec intModel (vecOf [1, 2]) (vecOf [3, 4]) 0).2
      (by decide)).1⟩

/-- C5: the unfinished functions are stubs with constant results:
matrix_deep_copy and matrix_shallow_copy return NULL for every input
matrix, and vector_low_pass_filter returns -1.0 for every vector and
alpha, independent of the contents of their arguments. -/
theorem stub_functions_constant (m : matrix_t F) (v : vector_t F) (alpha : F) :
    matrix_deep_copy m = none ∧ matrix_shallow_copy m = none ∧
    vector_low_pass_filter ops v alpha = ops.negOne :=
  ⟨rfl, rfl, rfl⟩

/-- C7: matrix_scalar_add, subtract, multiply and divide each return a
newly allocated matrix of the same shape whose every element is the
corresponding scalar operation applied to the matching element of the
input and the scalar, and the elements of the input are unchanged.  The
hypothesis keeps the uint32 element count `rows * columns` from
wrapping, as holds for any allocatable matrix. -/
theorem matrix_scalar_ops_spec (m : matrix_t F) (s : F) (i : Nat)
    (h32 : m.rows * m.columns < two32) :
    MScalarOk ops m s i (matrix_scalar_add ops m s) (scalar_add ops) ∧
    MScalarOk ops m s i (matrix_scalar_subtract ops m s) (scalar_subtract ops) ∧
    MScalarOk ops m s i (matrix_scalar_multiply ops m s) (scalar_multiply ops) ∧
    MScalarOk ops m s i (matrix_scalar_divide ops m s) (scalar_divide ops) :=
  ⟨ms_op_ok ops m s _ i h32, ms_op_ok ops m s _ i h32,
    ms_op_ok ops m s _ i h32, ms_op_ok ops m s _ i h32⟩

/-- C7 witness: the addition case evaluated on a concrete 2-by-2 zero
matrix over the executable model. -/
theorem matrix_scalar_ops_spec_witness :
    (matrix_create intModel 2 2).rows * (matrix_create intModel 2 2).columns
      < two32 ∧
    MScalarOk intModel (matrix_create intModel 2 2) 5 3
      (matrix_scalar_add intModel (matrix_create intModel 2 2) 5)
      (scalar_add intModel) :=
  ⟨by decide,
    (matrix_scalar_ops_spec intModel (matrix_create intModel 2 2) 5 3
      (by decide)).1⟩

/-- C6: vector_normalize returns NULL and leaves the vector's elements
unchanged when the computed magnitude compares equal to zero; otherwise
with inplace true it returns the input vector itself with every element
divided in place by the magnitude, and with inplace false it returns a
newly created vector whose i-th element is the input's i-th element
divided by the magnitude. -/
theorem vector_normalize_spec (v : vector_t F) (inplace : Bool) (i : Nat) :
    (ops.eqZero (vector_magnitude ops v) = true →
      vector_normalize ops v inplace = (v, VecResult.null)) ∧
    (ops.eqZero (vector_magnitude ops v) = false →
      (inplace = true →
        (vector_normalize ops v inplace).2 = VecResult.self ∧
        (vector_normalize ops v inplace).1.columns = v.columns ∧
        (i < v.columns →
          (vector_normalize ops v inplace).1.data i
            = ops.div (v.data i) (vector_magnitude ops v))) ∧
      (inplace = false →
        (vector_normalize ops v inplace).1 = v ∧
        (vector_normalize ops v inplace).2
          = VecResult.fresh (vec_of_result ops (vector_normalize ops v inplace).2) ∧
        (vec_of_result ops (vector_normalize ops v inplace).2).columns = v.columns ∧
        (i < v.columns →
          (vec_of_result ops (vector_normalize ops v inplace).2).data i
            = ops.div (v.data i) (vector_magnitude ops v)))) := by
  constructor
  · intro h
    unfold vector_normalize
    rw [if_pos (by rw [h] : (ops.eqZero (vector_magnitude ops v) : Prop))]
  · intro h
    constructor
    · intro hip
      subst hip
      unfold vector_normalize
      rw [if_neg (by rw [h]; exact Bool.false_ne_true : ¬(ops.eqZero (vector_magnitude ops v) : Prop)),
        if_pos rfl]
      refine ⟨rfl, rfl, fun hi => ?_⟩
      show mapLoop v.columns (fun _ x => ops.div x (vector_magnitude ops v))
          v.data i = ops.div (v.data i) (vector_magnitude ops v)
      rw [mapLoop_apply, if_pos hi]
    · intro hip
      subst hip
      unfold vector_normalize
      rw [if_neg (by rw [h]; exact Bool.false_ne_true : ¬(ops.eqZero (vector_magnitude ops v) : Prop))]
      rw [if_neg (by exact Bool.false_ne_true : ¬(false : Prop))]
      refine ⟨rfl, rfl, rfl, fun hi => ?_⟩
      show mapLoop v.columns (fun j _ => ops.div (v.data j) (vector_magnitude ops v))
          (vector_create ops v.columns).data i
          = ops.div (v.data i) (vector_magnitude ops v)
      rw [mapLoop_apply, if_pos hi]

/-- C6 witness: the out-of-place branch on a concrete non-zero vector
over the executable model. -/
theorem vector_normalize_spec_witness :
    intModel.eqZero (vector_magnitude intModel (vecOf [3, 4])) = false ∧
    ((vector_normalize intModel (vecOf [3, 4]) false).1 = vecOf [3, 4] ∧
      (vector_normalize intModel (vecOf [3, 4]) false).2
        = VecResult.fresh
          (vec_of_result intModel (vector_normalize intModel (vecOf [3, 4]) false).2) ∧
      (vec_of_result intModel
        (vector_normalize intModel (vecOf [3, 4]) false).2).columns
        = (vecOf [3, 4]).columns ∧
      (0 < (vecOf [3, 4]).columns →
        (vec_of_result intModel
          (vector_normalize intModel (vecOf [3, 4]) false).2).data 0
          = intModel.div ((vecOf [3, 4]).data 0)
            (vector_magnitude intModel (vecOf [3, 4])))) :=
  ⟨by decide,
    ((vector_normalize_spec intModel (vecOf [3, 4]) false 0).2 (by decide)).2 rfl⟩

/-- C8: when row and column are in bounds, matrix_set_element stores the
value and returns true, a subsequent matrix_get_element at that cell
returns the stored value, and every other in-bounds element reads
unchanged; when out of bounds, matrix_set_element returns false leaving
the matrix unchanged and matrix_get_element returns NaN.  The hypothesis
keeps the uint32 element count from wrapping. -/
theorem matrix_set_get_spec (m : matrix_t F) (row column : Nat) (value : F)
    (r c : Nat) (h32 : m.rows * m.columns < two32) :
    (row < m.rows ∧ column < m.columns →
      (matrix_set_element m row column value).1 = true ∧
      matrix_get_element ops (matrix_set_element m row column value).2 row column
        = value ∧
      (r < m.rows → c < m.columns → ¬(r = row ∧ c = column) →
        matrix_get_element ops (matrix_set_element m row column value).2 r c
          = matrix_get_element ops m r c)) ∧
    (row ≥ m.rows ∨ column ≥ m.columns →
      matrix_set_element m row column value = (false, m) ∧
      matrix_get_element ops m row column = ops.nan) := by
  constructor
  · rintro ⟨hr, hc⟩
    have hnot : ¬(row ≥ m.rows ∨ column ≥ m.columns) := by omega
    have hset : matrix_set_element m row column value
        = (true, { m with
            data := fun j => if j = index32 row m.columns column then value
              else m.data j }) := by
      unfold matrix_set_element
      rw [if_neg hnot]
    refine ⟨by rw [hset], ?_, ?_⟩
    · rw [hset]
      unfold matrix_get_element
      rw [if_neg hnot]
      show (if index32 row m.columns column = index32 row m.columns column
          then value else m.data (index32 row m.columns column)) = value
      rw [if_pos rfl]
    · intro hr2 hc2 hne
      have hnot2 : ¬(r ≥ m.rows ∨ c ≥ m.columns) := by omega
      rw [hset]
      unfold matrix_get_element
      rw [if_neg hnot2, if_neg hnot2]
      show (if index32 r m.columns c = index32 row m.columns column
          then value else m.data (index32 r m.columns c))
          = m.data (index32 r m.columns c)
      rw [if_neg ?_]
      rw [index32_eq m.rows m.columns r c h32 hr2 hc2,
        index32_eq m.rows m.columns row column h32 hr hc]
      exact row_major_index_inj m.rows m.columns r c row column hr2 hc2 hr hc hne
  · intro h
    constructor
    · unfold matrix_set_element
      rw [if_pos h]
    · unfold matrix_get_element
      rw [if_pos h]

/-- C8 witness: a concrete 2-by-2 matrix over the executable model, set
at (0, 1) and read back there and at (1, 1). -/
theorem matrix_set_get_spec_witness :
    (matrix_create intModel 2 2).rows * (matrix_create intModel 2 2).columns
      < two32 ∧
    ((0 : Nat) < (matrix_create intModel 2 2).rows ∧
      (1 : Nat) < (matrix_create intModel 2 2).columns) ∧
    ((matrix_set_element (matrix_create intModel 2 2) 0 1 9).1 = true ∧
      matrix_get_element intModel
        (matrix_set_element (matrix_create intModel 2 2) 0 1 9).2 0 1 = 9 ∧
      ((1 : Nat) < (matrix_create intModel 2 2).rows →
        (1 : Nat) < (matrix_create intModel 2 2).columns →
        ¬((1 : Nat) = 0 ∧ (1 : Nat) = 1) →
        matrix_get_element intModel
          (matrix_set_element (matrix_create intModel 2 2) 0 1 9).2 1 1
          = matrix_get_element intModel (matrix_create intModel 2 2) 1 1)) :=
  ⟨by decide, by decide,
    (matrix_set_get_spec intModel (matrix_create intModel 2 2) 0 1 9 1 1
      (by decide)).1 (by decide)⟩

/-- C9 counterexample: vector_vector_divide is not total in its claimed
sense; on vectors of dimensions 1 and 2 it returns NULL rather than a
vector. -/
theorem vector_vector_divide_null_counterexample :
    (vector_vector_divide intModel (vecOf [1]) (vecOf [1, 2])).2.2 = none := rfl

/-- C9 amended: scalar_divide of any x by the zero value is NaN;
vector_scalar_divide always returns a vector, and vector_vector_divide
returns a vector whenever the dimensions match (returning NULL when they
differ); in every returned vector, positions whose divisor compares
equal to zero hold NaN and all other positions hold the quotient of the
corresponding operands. -/
theorem divide_by_zero_spec (x : F) (a b : vector_t F) (s : F) (i : Nat) :
    scalar_divide ops x ops.zero = ops.nan ∧
    (vector_scalar_divide ops a s).columns = a.columns ∧
    (i < a.columns →
      (vector_scalar_divide ops a s).data i
        = if ops.eqZero s then ops.nan else ops.div (a.data i) s) ∧
    (a.columns ≠ b.columns → (vector_vector_divide ops a b).2.2 = none) ∧
    (a.columns = b.columns →
      (vector_vector_divide ops a b).2.2.isSome = true ∧
      (ew_result ops (vector_vector_divide ops a b)).columns = a.columns ∧
      (i < a.columns →
        (ew_result ops (vector_vector_divide ops a b)).data i
          = if ops.eqZero (b.data i) then ops.nan
            else ops.div (a.data i) (b.data i))) := by
  refine ⟨?_, rfl, fun hi => ?_, fun hne => ?_, fun heq => ?_⟩
  · unfold scalar_divide
    rw [if_pos (by rw [ops.eqZero_zero] : (ops.eqZero ops.zero : Prop))]
  · show mapLoop a.columns (fun j _ => scalar_divide ops (a.data j) s)
        (vector_create ops a.columns).data i = _
    rw [mapLoop_apply, if_pos hi]
    rfl
  · rw [show vector_vector_divide ops a b
        = vector_vector_elementwise_operation ops a b (scalar_divide ops) from rfl,
      vv_elemwise_none ops a b _ hne]
  · have hok := vv_elemwise_ok ops a b (scalar_divide ops) i heq
    refine ⟨hok.2.2.1, hok.2.2.2.1, fun hi => ?_⟩
    show (ew_result ops
        (vector_vector_elementwise_operation ops a b (scalar_divide ops))).data i = _
    rw [hok.2.2.2.2 hi]
    rfl

/-- C9 witness: division facts evaluated on concrete vectors with a zero
divisor position, over the executable model. -/
theorem divide_by_zero_spec_witness :
    ((vecOf [4, 5]).columns = (vecOf [2, 0]).columns) ∧
    (1 < (vecOf [4, 5]).columns) ∧
    (scalar_divide intModel 7 intModel.zero = intModel.nan ∧
      (vector_scalar_divide intModel (vecOf [4, 5]) 0).columns
        = (vecOf [4, 5]).columns ∧
      (1 < (vecOf [4, 5]).columns →
        (vector_scalar_divide intModel (vecOf [4, 5]) 0).data 1
          = if intModel.eqZero 0 then intModel.nan
            else intModel.div ((vecOf [4, 5]).data 1) 0) ∧
      ((vecOf [4, 5]).columns ≠ (vecOf [2, 0]).columns →
        (vector_vector_divide intModel (vecOf [4, 5]) (vecOf [2, 0])).2.2 = none) ∧
      ((vecOf [4, 5]).columns = (vecOf [2, 0]).columns →
        (vector_vector_divide intModel (vecOf [4, 5]) (vecOf [2, 0])).2.2.isSome
          = true ∧
        (ew_result intModel
          (vector_vector_divide intModel (vecOf [4, 5]) (vecOf [2, 0]))).columns
          = (vecOf [4, 5]).columns ∧
        (1 < (vecOf [4, 5]).columns →
          (ew_result intModel
            (vector_vector_divide intModel (vecOf [4, 5]) (vecOf [2, 0]))).data 1
            = if intModel.eqZero ((vecOf [2, 0]).data 1) then intModel.nan
              else intModel.div ((vecOf [4, 5]).data 1) ((vecOf [2, 0]).data 1)))) :=
  ⟨by decide, by decide,
    divide_by_zero_spec intModel 7 (vecOf [4, 5]) (vecOf [2, 0]) 0 1⟩

/-- C1 counterexample: failing operations that do not signal failure by
returning NULL: vector_distance on mismatched dimensions fails by
returning NaN, and matrix_set_element out of bounds fails by returning
false. -/
theorem failure_signal_not_null_counterexample :
    vector_distance intModel (vecOf [0]) (vecOf [0, 0]) = intModel.nan ∧
    (matrix_set_element (matrix_create intModel 1 1) 1 0 5).1 = false :=
  ⟨rfl, rfl⟩

/-- C1 amended: pointer-returning operations report failure by NULL with
a log message, but value-returning operations signal failure in-band:
vector_distance and matrix_get_element return NaN, matrix_set_element
returns false, and the unimplemented vector_low_pass_filter returns
-1.0. -/
theorem failure_signaling_spec (a b : vector_t F) (m : matrix_t F)
    (row column : Nat) (value : F) (v : vector_t F) (alpha : F)
    (hab : a.columns ≠ b.columns) (hout : row ≥ m.rows ∨ column ≥ m.columns) :
    (vector_vector_add ops a b).2.2 = none ∧
    vector_distance ops a b = ops.nan ∧
    matrix_get_element ops m row column = ops.nan ∧
    matrix_set_element m row column value = (false, m) ∧
    vector_low_pass_filter ops v alpha = ops.negOne := by
  refine ⟨?_, ?_, ?_, ?_, rfl⟩
  · rw [show vector_vector_add ops a b
        = vector_vector_elementwise_operation ops a b (scalar_add ops) from rfl,
      vv_elemwise_none ops a b _ hab]
  · unfold vector_distance
    rw [if_pos hab]
  · unfold matrix_get_element
    rw [if_pos hout]
  · unfold matrix_set_element
    rw [if_pos hout]

/-- C1 witness: the amended failure-signaling map evaluated at concrete
mismatched vectors and an out-of-bounds matrix access. -/
theorem failure_signaling_spec_witness :
    ((vecOf [1]).columns ≠ (vecOf [2, 3]).columns) ∧
    ((3 : Nat) ≥ (matrix_create intModel 2 2).rows ∨
      (0 : Nat) ≥ (matrix_create intModel 2 2).columns) ∧
    ((vector_vector_add intModel (vecOf [1]) (vecOf [2, 3])).2.2 = none ∧
      vector_distance intModel (vecOf [1]) (vecOf [2, 3]) = intModel.nan ∧
      matrix_get_element intModel (matrix_create intModel 2 2) 3 0
        = intModel.nan ∧
      matrix_set_element (matrix_create intModel 2 2) 3 0 7
        = (false, matrix_create intModel 2 2) ∧
      vector_low_pass_filter intModel (vecOf [1]) 2 = intModel.negOne) :=
  ⟨by decide, by decide,
    failure_signaling_spec intModel (vecOf [1]) (vecOf [2, 3])
      (matrix_create intModel 2 2) 3 0 7 (vecOf [1]) 2 (by decide) (by decide)⟩

/-- C10: encode_float32 and decode_float32 are mutually inverse bit
casts: decoding any int32 value and re-encoding it returns the same
integer, and encoding any float bit pattern and decoding it returns the
identical bit pattern. -/
theorem float32_bitcast_inverse (bits : Int) (x : Float32Bits)
    (h1 : -2147483648 ≤ bits) (h2 : bits < 2147483648) :
    encode_float32 (decode_float32 bits) = bits ∧
    decode_float32 (encode_float32 x) = x := by
  constructor
  · show (if ((bits % (two32 : Int)).toNat : Nat) < 2147483648
        then (((bits % (two32 : Int)).toNat : Nat) : Int)
        else (((bits % (two32 : Int)).toNat : Nat) : Int) - (two32 : Int)) = bits
    unfold two32 at *
    split <;> omega
  · have hx : x.val < two32 := x.isLt
    apply Fin.ext
    show ((if x.val < 2147483648 then (x.val : Int)
        else (x.val : Int) - (two32 : Int)) % (two32 : Int)).toNat = x.val
    unfold two32 at *
    split <;> omega

/-- C10 witness: the round trips evaluated at the int32 value -5 and at
the bit pattern 3221225472. -/
theorem float32_bitcast_inverse_witness :
    (-2147483648 ≤ (-5 : Int)) ∧ ((-5 : Int) < 2147483648) ∧
    (encode_float32 (decode_float32 (-5)) = (-5 : Int) ∧
      decode_float32 (encode_float32 (⟨3221225472, by decide⟩ : Float32Bits))
        = (⟨3221225472, by decide⟩ : Float32Bits)) :=
  ⟨by decide, by decide,
    float32_bitcast_inverse (-5) (⟨3221225472, by decide⟩ : Float32Bits)
      (by decide) (by decide)⟩

/-- C2 counterexample: the task queue is not bounded by queue_size.
From a freshly created pool whose queue_size is 1, two consecutive
thread_pool_submit calls (a legal interleaving, since submit never
waits for space) reach a state with task_count 2, exceeding
queue_size. -/
theorem task_count_exceeds_queue_size :
    (pool_run (fun (_ : Nat) (s : Unit) => s)
        [pool_event.submit 0, pool_event.submit 0]
        (thread_pool_create Nat 1 1 0, ())).1.queue_size
      < (pool_run (fun (_ : Nat) (s : Unit) => s)
        [pool_event.submit 0, pool_event.submit 0]
        (thread_pool_create Nat 1 1 0, ())).1.task_count := by decide

/-- C2 amended: in every state reachable from a freshly created pool
(queue_size positive, as LINEAR_THREAD_COUNT is) by any sequence of
thread_pool_submit calls and worker-thread steps, the head and tail
indices stay strictly below queue_size; task_count, however, is not
bounded by queue_size, because thread_pool_submit performs no bound
check and overwrites pending slots. -/
theorem pool_indices_bounded {T S : Type} (apply : T → S → S)
    (events : List (pool_event T)) (num_threads nprocs : Nat) (junk : T) (s : S)
    (h : 0 < nprocs) :
    (pool_run apply events (thread_pool_create T num_threads nprocs junk, s)).1.head
      < (pool_run apply events
          (thread_pool_create T num_threads nprocs junk, s)).1.queue_size ∧
    (pool_run apply events (thread_pool_create T num_threads nprocs junk, s)).1.tail
      < (pool_run apply events
          (thread_pool_create T num_threads nprocs junk, s)).1.queue_size := by
  have hwf := pool_run_wf apply events
    (thread_pool_create T num_threads nprocs junk, s) ⟨h, h, h⟩
  exact ⟨hwf.2.1, hwf.2.2⟩

/-- C2 witness: the index bounds evaluated after a concrete submit and
worker pass on a two-slot pool. -/
theorem pool_indices_bounded_witness :
    (0 : Nat) < 2 ∧
    ((pool_run (fun (_ : Nat) (s : Unit) => s)
        [pool_event.submit 5, pool_event.work]
        (thread_pool_create Nat 1 2 0, ())).1.head
      < (pool_run (fun (_ : Nat) (s : Unit) => s)
          [pool_event.submit 5, pool_event.work]
          (thread_pool_create Nat 1 2 0, ())).1.queue_size ∧
    (pool_run (fun (_ : Nat) (s : Unit) => s)
        [pool_event.submit 5, pool_event.work]
        (thread_pool_create Nat 1 2 0, ())).1.tail
      < (pool_run (fun (_ : Nat) (s : Unit) => s)
          [pool_event.submit 5, pool_event.work]
          (thread_pool_create Nat 1 2 0, ())).1.queue_size) :=
  ⟨by decide,
    pool_indices_bounded (fun (_ : Nat) (s : Unit) => s)
      [pool_event.submit 5, pool_event.work] 1 2 0 () (by decide)⟩

/-- C3: executing an element-wise vector addition through the thread
pool produces the same result as the sequential element-wise loop: from
a freshly created pool, submitting one task per element (each task
applying the scalar addition to one index of the operands and the
result buffer, as the worker performs it) and letting a worker complete
each one leaves the result buffer equal, at every index, to the vector
produced by the sequential vector_vector_add. -/
theorem pool_execution_matches_sequential (a b : vector_t F)
    (num_threads nprocs j : Nat) (h : a.columns = b.columns) (hq : 0 < nprocs) :
    (vector_vector_add ops a b).2.2.isSome = true ∧
    (pool_run (vector_add_task_apply ops a b)
        (elementwise_schedule (List.range a.columns))
        (thread_pool_create Nat num_threads nprocs 0,
          (vector_create ops a.columns).data)).2 j
      = (ew_result ops (vector_vector_add ops a b)).data j := by
  constructor
  · show (vector_vector_elementwise_operation ops a b (scalar_add ops)).2.2.isSome
        = true
    unfold vector_vector_elementwise_operation
    rw [if_neg (by omega)]
    rfl
  · rw [pool_run_schedule (vector_add_task_apply ops a b) (List.range a.columns)
      (thread_pool_create Nat num_threads nprocs 0)
      (vector_create ops a.columns).data hq rfl rfl rfl]
    have hfold : (List.range a.columns).foldl
        (fun acc task => vector_add_task_apply ops a b task acc)
        (vector_create ops a.columns).data
      = mapLoop a.columns (fun i _ => scalar_add ops (a.data i) (b.data i))
        (vector_create ops a.columns).data := rfl
    rw [hfold]
    show _ = (ew_result ops
      (vector_vector_elementwise_operation ops a b (scalar_add ops))).data j
    unfold vector_vector_elementwise_operation
    rw [if_neg (by omega)]
    rfl

/-- C3 witness: pool-based and sequential addition of two concrete
vectors agree at index 1, over the executable model. -/
theorem pool_execution_matches_sequential_witness :
    (vecOf [1, 2]).columns = (vecOf [3, 4]).columns ∧ (0 : Nat) < 1 ∧
    ((vector_vector_add intModel (vecOf [1, 2]) (vecOf [3, 4])).2.2.isSome
        = true ∧
      (pool_run (vector_add_task_apply intModel (vecOf [1, 2]) (vecOf [3, 4]))
          (elementwise_schedule (List.range (vecOf [1, 2]).columns))
          (thread_pool_create Nat 1 1 0,
            (vector_create intModel (vecOf [1, 2]).columns).data)).2 1
        = (ew_result intModel
            (vector_vector_add intModel (vecOf [1, 2]) (vecOf [3, 4]))).data 1) :=
  ⟨by decide, by decide,
    pool_execution_matches_sequential intModel (vecOf [1, 2]) (vecOf [3, 4])
      1 1 1 (by decide) (by decide)⟩

end LinearC
